import Mathlib

set_option maxHeartbeats 1000000

/-!
Shallow embedding of the NSE label-derivation core of the repository
(`src/storage-proofs/porep/src/nse/vanilla/labels.rs`).

Byte buffers are `List Nat` with every entry below 256.  Code of the
repository that is not under `src/` (the `batch_hasher`, the graph
generators, `Config`, the domain-element codec and the `encode` module)
is modelled from the spec; each such definition says so in its doc
comment.
-/

/-- Node size in bytes (`storage_proofs_core::util::NODE_SIZE`). -/
def NODE_SIZE : Nat := 32

/-- Modelled from the spec: the modulus of the 256-bit field-like domain
used by the combine operation (the BLS12-381 scalar field of the
`Domain` implementations); the domain-element codec is not under `src/`. -/
def rModulus : Nat :=
  52435875175126190479447740508185965837690552500527637822603658699938581184513

/-- Little-endian interpretation of a byte list as a natural number. -/
def fromLE : List Nat → Nat
  | [] => 0
  | b :: bs => b + 256 * fromLE bs

/-- Little-endian encoding of a value into `k` bytes. -/
def toLE : Nat → Nat → List Nat
  | 0, _ => []
  | k + 1, v => v % 256 :: toLE k (v / 256)

/-- Little-endian encoding of a domain element into 32 bytes
(`AsRef<[u8]>` on a domain element). -/
def toLE32 (v : Nat) : List Nat := toLE 32 v

/-- Modelled from the spec: the domain-element codec
(`Domain::try_from_bytes`), failing when the buffer is not 32 bytes long
or its value is not below the domain modulus. -/
def try_from_bytes (bs : List Nat) : Option Nat :=
  if bs.length = 32 ∧ fromLE bs < rModulus then some (fromLE bs) else none

/-- Modelled from the spec: `truncate_hash` of `batch_hasher.rs` (not
under `src/`) clears the two high-order bits of the last byte of a
32-byte hash so that the value, read little-endian, lies below the
domain modulus. -/
def truncate_hash (h : List Nat) : List Nat :=
  h.take 31 ++ [h.getD 31 0 % 64]

/-- Modelled from the spec: `encode::encode` (not under `src/`), the
combine operation folding a derived key with a data node; a group
operation (addition in the domain field). -/
def combine (key data : Nat) : Nat := (data + key) % rModulus

/-- Modelled from the spec: `encode::decode` (not under `src/`), the
exact inverse of `combine` (subtraction in the domain field). -/
def inverse_combine (key enc : Nat) : Nat :=
  (enc + (rModulus - key % rModulus)) % rModulus

/-- Big-endian 4-byte encoding of a `u32` (`u32::to_be_bytes`); on a
natural number it encodes the value reduced mod `2^32`. -/
def toBE4 (x : Nat) : List Nat :=
  [x / 2 ^ 24 % 256, x / 2 ^ 16 % 256, x / 2 ^ 8 % 256, x % 256]

/-- Overwrite `v.length` bytes of `buf` starting at `start`
(`copy_from_slice` into a subslice). -/
def setRange (buf : List Nat) (start : Nat) (v : List Nat) : List Nat :=
  buf.take start ++ v ++ buf.drop (start + v.length)

/-- The first 32-byte prefix for hashing any node
(`labels.rs::hash_prefix`): a 32-byte zero buffer whose bytes 0-3, 4-7
and 8-11 are overwritten with the big-endian encodings of the layer, the
node index and the window index. -/
def hash_prefix (layer node_index window_index : Nat) : List Nat :=
  let p0 := List.replicate 32 0
  let p1 := setRange p0 0 (toBE4 layer)
  let p2 := setRange p1 4 (toBE4 node_index)
  let p3 := setRange p2 8 (toBE4 window_index)
  p3

/-- Read the 32-byte node at index `i` of a layer buffer
(`&layer[i * NODE_SIZE..(i + 1) * NODE_SIZE]`). -/
def readNode (l : List Nat) (i : Nat) : List Nat :=
  (l.drop (NODE_SIZE * i)).take NODE_SIZE

/-- Overwrite the 32-byte node at index `i` of a layer buffer
(`node.copy_from_slice(..)` on `chunks_mut(NODE_SIZE)`). -/
def setChunk (buf : List Nat) (i : Nat) (v : List Nat) : List Nat :=
  buf.take (NODE_SIZE * i) ++ v ++ buf.drop (NODE_SIZE * i + NODE_SIZE)

/-- The list `[s, s+1, ..., s+n-1]` of node or layer indices. -/
def rangeList (s : Nat) : Nat → List Nat
  | 0 => []
  | n + 1 => s :: rangeList (s + 1) n

/-- Write node `i` into chunk `i` of the buffer for every chunk index,
mirroring the `for (node_index, node) in layer_out.chunks_mut(NODE_SIZE)`
loops of the stage functions. -/
def writeNodes (node : Nat → List Nat) (buf : List Nat) : List Nat :=
  (rangeList 0 (buf.length / NODE_SIZE)).foldl
    (fun b i => setChunk b i (node i)) buf

/-- Modelled from the spec: the incremental SHA-256 engine of `sha2raw`
(not under `src/`).  Its digest is a function of the concatenated input
stream only; the digest function itself is kept as a parameter `dg`. -/
structure Sha256 where
  acc : List Nat

/-- Fresh hash engine (`Sha256::new`). -/
def Sha256.new : Sha256 := ⟨[]⟩

/-- Feed a list of byte slices to the engine (`Sha256::input`). -/
def Sha256.input (h : Sha256) (slices : List (List Nat)) : Sha256 :=
  ⟨h.acc ++ slices.join⟩

/-- Finalize the engine with digest function `dg` (`Sha256::finish`). -/
def Sha256.finish (h : Sha256) (dg : List Nat → List Nat) : List Nat :=
  dg h.acc

/-- One-shot digest of a list of slices (`Sha256::digest`). -/
def Sha256.digestOf (dg : List Nat → List Nat) (slices : List (List Nat)) :
    List Nat :=
  (Sha256.new.input slices).finish dg

/-- Modelled from the spec: `batch_hash` of `batch_hasher.rs` (not under
`src/`): hashes the `degree` parent node values read from `layer_in` in
index order into the preloaded engine, feeding `k` values per internal
engine update, and finalizes. -/
def batch_hash (dg : List Nat → List Nat) (k degree : Nat) (hasher : Sha256)
    (parents : List Nat) (layer_in : List Nat) : List Nat :=
  let vals := parents.map (readNode layer_in)
  let groups := (vals.length + k - 1) / k
  (((rangeList 0 groups).foldl
      (fun h g => h.input ((vals.drop (g * k)).take k)) hasher)).finish dg

/-- Consecutive pairs of a parent list (`Itertools::tuples`); a leftover
odd element is dropped. -/
def pairsOf : List Nat → List (Nat × Nat)
  | a :: b :: rest => (a, b) :: pairsOf rest
  | _ => []

/-- Modelled from the spec: the `Config` of `nse/vanilla` (not under
`src/`): batching factor `k`, window size `n` in bytes, the two graph
degrees and the two layer counts. -/
structure Config where
  k : Nat
  n : Nat
  degree_expander : Nat
  degree_butterfly : Nat
  num_expander_layers : Nat
  num_butterfly_layers : Nat

/-- Total number of layers (`Config::num_layers`). -/
def Config.num_layers (c : Config) : Nat :=
  c.num_expander_layers + c.num_butterfly_layers

/-- Modelled from the spec: the primitives of the repository that are
not under `src/`: the SHA-256 digest as a function of the concatenated
byte stream, and the two deterministic parent generators (the expander
graph is layer-independent, the butterfly graph also takes the layer
index). -/
structure Primitives where
  dg : List Nat → List Nat
  expParents : Config → Nat → List Nat
  bflyParents : Config → Nat → Nat → List Nat

/-- A digest function behaves like SHA-256 on bytes: 32 output bytes,
each below 256. -/
def DigestValid (dg : List Nat → List Nat) : Prop :=
  ∀ l, (dg l).length = 32 ∧ ∀ b ∈ dg l, b < 256

/-- Per-node value of the mask layer:
`truncate_hash(Sha256::digest([prefix, replica_id]))`. -/
def maskNode (P : Primitives) (w : Nat) (rid : List Nat) (i : Nat) :
    List Nat :=
  truncate_hash (Sha256.digestOf P.dg [ hash_prefix 1 i w, rid])

/-- Per-node value of an expander layer: the truncated batch hash of the
expander parents over the preloaded prefix/replica-id engine. -/
def expanderNode (P : Primitives) (c : Config) (w : Nat) (rid : List Nat)
    (li : Nat) (layer_in : List Nat) (i : Nat) : List Nat :=
  truncate_hash
    (batch_hash P.dg c.k c.degree_expander
      (Sha256.new.input [ hash_prefix li i w, rid])
      (P.expParents c i) layer_in)

/-- Raw butterfly digest for one node: prefix and replica id, then the
parent values consumed in adjacent pairs. -/
def butterflyDigest (P : Primitives) (c : Config) (w : Nat) (rid : List Nat)
    (li : Nat) (layer_in : List Nat) (i : Nat) : List Nat :=
  (((pairsOf (P.bflyParents c i li)).foldl
      (fun h pr => h.input [readNode layer_in pr.1, readNode layer_in pr.2])
      (Sha256.new.input [ hash_prefix li i w, rid]))).finish P.dg

/-- Per-node value of a pure butterfly layer: the truncated butterfly
digest. -/
def butterflyNode (P : Primitives) (c : Config) (w : Nat) (rid : List Nat)
    (li : Nat) (layer_in : List Nat) (i : Nat) : List Nat :=
  truncate_hash (butterflyDigest P c w rid li layer_in i)

/-- `labels.rs::mask_layer`: checks the buffer length, then overwrites
every 32-byte chunk of `layer_out` with the truncated mask hash.  The
returned buffer is the state of `layer_out` after the call; `some e`
signals the `Err` case. -/
def mask_layer (P : Primitives) (c : Config) (w : Nat) (rid : List Nat)
    (layer_out : List Nat) : List Nat × Option String :=
  if layer_out.length = c.n then
    (writeNodes (maskNode P w rid) layer_out, none)
  else (layer_out, some "layer_out must be of size n")

/-- `labels.rs::expander_layer`: the three `ensure!` checks, then the
per-node batch-hash loop. -/
def expander_layer (P : Primitives) (c : Config) (w : Nat) (rid : List Nat)
    (li : Nat) (layer_in layer_out : List Nat) : List Nat × Option String :=
  if layer_in.length ≠ layer_out.length then
    (layer_out, some "layer_in and layer_out must of the same size")
  else if layer_out.length ≠ c.n then
    (layer_out, some "layer_out must be of size n")
  else if ¬ (1 < li ∧ li ≤ c.num_expander_layers) then
    (layer_out, some "layer index out of range")
  else
    (writeNodes (expanderNode P c w rid li layer_in) layer_out, none)

/-- `labels.rs::butterfly_layer`: the three `ensure!` checks, the graph
construction (modelled from the spec: building the butterfly graph from
the config requires an even `degree_butterfly`, since parents are
consumed in pairs), then the per-node loop. -/
def butterfly_layer (P : Primitives) (c : Config) (w : Nat) (rid : List Nat)
    (li : Nat) (layer_in layer_out : List Nat) : List Nat × Option String :=
  if layer_in.length ≠ layer_out.length then
    (layer_out, some "layer_in and layer_out must of the same size")
  else if layer_out.length ≠ c.n then
    (layer_out, some "layer_out must be of size n")
  else if ¬ (c.num_expander_layers < li ∧
      li < c.num_expander_layers + c.num_butterfly_layers) then
    (layer_out, some "layer index out of range")
  else if c.degree_butterfly % 2 ≠ 0 then
    (layer_out, some "odd degree_butterfly")
  else
    (writeNodes (butterflyNode P c w rid li layer_in) layer_out, none)

/-- The node loop of `butterfly_encode_decode_layer`: for each remaining
node index, derive and truncate the key, convert key and data node to
domain elements (either conversion error aborts, leaving nodes already
processed written in the buffer), apply `op` and write the result. -/
def edLoop (P : Primitives) (c : Config) (w : Nat) (rid : List Nat)
    (li : Nat) (layer_in data : List Nat) (op : Nat → Nat → Nat) :
    List Nat → List Nat → List Nat × Option String
  | [], buf => (buf, none)
  | i :: rest, buf =>
    match try_from_bytes (truncate_hash (butterflyDigest P c w rid li layer_in i)) with
    | none => (buf, some "invalid key bytes")
    | some key =>
      match try_from_bytes ((data.drop (NODE_SIZE * i)).take NODE_SIZE) with
      | none => (buf, some "invalid data bytes")
      | some d =>
        edLoop P c w rid li layer_in data op rest
          (setChunk buf i (toLE32 (op key d)))

/-- Number of `chunks(NODE_SIZE)` of a byte buffer (the last chunk may
be short). -/
def numChunks (l : List Nat) : Nat := (l.length + NODE_SIZE - 1) / NODE_SIZE

/-- `labels.rs::butterfly_encode_decode_layer`: the three `ensure!`
checks, the graph construction (modelled from the spec: even
`degree_butterfly` required), then the zipped node loop; the zip of
`layer_out.chunks_mut` with `data.chunks` processes
`min (numChunks layer_out) (numChunks data)` nodes. -/
def butterfly_encode_decode_layer (P : Primitives) (c : Config) (w : Nat)
    (rid : List Nat) (li : Nat) (layer_in data layer_out : List Nat)
    (op : Nat → Nat → Nat) : List Nat × Option String :=
  if layer_in.length ≠ layer_out.length then
    (layer_out, some "layer_in and layer_out must of the same size")
  else if layer_out.length ≠ c.n then
    (layer_out, some "layer_out must be of size n")
  else if li ≠ c.num_expander_layers + c.num_butterfly_layers then
    (layer_out, some "encoding must be on the last layer")
  else if c.degree_butterfly % 2 ≠ 0 then
    (layer_out, some "odd degree_butterfly")
  else
    edLoop P c w rid li layer_in data op
      (rangeList 0 (min (numChunks layer_out) (numChunks data))) layer_out

/-- `labels.rs::butterfly_encode_layer`: the encode/decode layer with
`encode::encode`. -/
def butterfly_encode_layer (P : Primitives) (c : Config) (w : Nat)
    (rid : List Nat) (li : Nat) (layer_in data layer_out : List Nat) :
    List Nat × Option String :=
  butterfly_encode_decode_layer P c w rid li layer_in data layer_out combine

/-- `labels.rs::butterfly_decode_layer`: the encode/decode layer with
`encode::decode`. -/
def butterfly_decode_layer (P : Primitives) (c : Config) (w : Nat)
    (rid : List Nat) (li : Nat) (layer_in data layer_out : List Nat) :
    List Nat × Option String :=
  butterfly_encode_decode_layer P c w rid li layer_in data layer_out
    inverse_combine

/-- The ping-pong layer loop shared by `encode_with_trees` and `decode`:
run `step` for each layer index, write into the current buffer, push the
produced layer (its merkle-tree handle) and swap the two buffers. -/
def layerLoop (step : Nat → List Nat → List Nat → List Nat × Option String) :
    List Nat → List Nat → List Nat → List (List Nat) →
    Except String (List Nat × List Nat × List (List Nat))
  | [], prev, cur, acc => .ok (prev, cur, acc)
  | li :: rest, prev, cur, acc =>
    match step li prev cur with
    | (out, none) => layerLoop step rest out prev (acc ++ [out])
    | (_, some e) => .error e

/-- `labels.rs::encode_with_trees`: mask layer, expander layers
`2..=num_expander_layers`, butterfly layers
`num_expander_layers+1..num_layers`, then the butterfly encode layer;
returns the encoded final layer and one tree handle (modelled as the
layer's bytes) per produced layer, in layer order. -/
def encode_with_trees (P : Primitives) (c : Config) (w : Nat)
    (rid : List Nat) (data : List Nat) :
    Except String (List Nat × List (List Nat)) :=
  match mask_layer P c w rid (List.replicate c.n 0) with
  | (_, some e) => .error e
  | (maskOut, none) =>
    match layerLoop (fun li p q => expander_layer P c w rid li p q)
        (rangeList 2 (c.num_expander_layers - 1)) maskOut
        (List.replicate c.n 0) [maskOut] with
    | .error e => .error e
    | .ok (prev1, cur1, trees1) =>
      match layerLoop (fun li p q => butterfly_layer P c w rid li p q)
          (rangeList (c.num_expander_layers + 1)
            (c.num_layers - c.num_expander_layers - 1)) prev1 cur1 trees1 with
      | .error e => .error e
      | .ok (prev2, cur2, trees2) =>
        match butterfly_encode_layer P c w rid c.num_layers prev2 data cur2 with
        | (_, some e) => .error e
        | (out, none) => .ok (out, trees2 ++ [out])

/-- `labels.rs::decode`: the same mask, expander and butterfly layers,
then the butterfly decode layer; no trees are produced. -/
def decode (P : Primitives) (c : Config) (w : Nat) (rid : List Nat)
    (encoded_data : List Nat) : Except String (List Nat) :=
  match mask_layer P c w rid (List.replicate c.n 0) with
  | (_, some e) => .error e
  | (maskOut, none) =>
    match layerLoop (fun li p q => expander_layer P c w rid li p q)
        (rangeList 2 (c.num_expander_layers - 1)) maskOut
        (List.replicate c.n 0) [] with
    | .error e => .error e
    | .ok (prev1, cur1, _) =>
      match layerLoop (fun li p q => butterfly_layer P c w rid li p q)
          (rangeList (c.num_expander_layers + 1)
            (c.num_layers - c.num_expander_layers - 1)) prev1 cur1 [] with
      | .error e => .error e
      | .ok (prev2, cur2, _) =>
        match butterfly_decode_layer P c w rid c.num_layers prev2
            encoded_data cur2 with
        | (_, some e) => .error e
        | (out, none) => .ok out

/-- Every 32-byte node of a layer buffer is a valid domain element. -/
def ValidLayer (l : List Nat) : Prop :=
  ∀ i < l.length / NODE_SIZE, fromLE (readNode l i) < rModulus

instance (l : List Nat) : Decidable (ValidLayer l) := by
  unfold ValidLayer; infer_instance

/-- A concrete digest function for witnesses: constant 32 bytes of 1. -/
def dg0 : List Nat → List Nat := fun _ => List.replicate 32 1

/-- Concrete primitives for witnesses. -/
def P0 : Primitives :=
  ⟨dg0, fun _ _ => [0], fun c _ _ => List.replicate c.degree_butterfly 0⟩

/-- A tiny single-leaf configuration for witnesses. -/
def cfg0 : Config := ⟨1, 32, 1, 2, 1, 1⟩

/-- A two-leaf configuration for counterexamples. -/
def cfg64 : Config := ⟨1, 64, 1, 2, 1, 1⟩

/-- An odd-degree-butterfly configuration. -/
def cfgOdd : Config := ⟨1, 32, 1, 3, 1, 1⟩

/-- A zero replica id. -/
def id0 : List Nat := List.replicate 32 0

/-- Zero data of one node. -/
def data0 : List Nat := List.replicate 32 0

/-- A config whose butterfly stage has a valid layer index, for witnesses. -/
def cfgB : Config := ⟨1, 32, 1, 2, 1, 2⟩

/-- Per-node value written by the butterfly encode/decode layer: `op`
applied to the truncated butterfly key and the matching data node. -/
def edNode (P : Primitives) (c : Config) (w : Nat) (rid : List Nat) (li : Nat)
    (lin data : List Nat) (op : Nat → Nat → Nat) (i : Nat) : List Nat :=
  toLE32 (op (fromLE (truncate_hash (butterflyDigest P c w rid li lin i)))
    (fromLE ((data.drop (NODE_SIZE * i)).take NODE_SIZE)))

/-- Input buffer of two nodes, for counterexamples. -/
def lin64 : List Nat := List.replicate 64 0

/-- Output buffer of two nodes with non-zero prior contents, for
counterexamples. -/
def lout64 : List Nat := List.replicate 64 7

/-- Two data nodes: a valid domain element followed by an out-of-range
one. -/
def dataBad64 : List Nat := List.replicate 32 0 ++ List.replicate 32 255

/-- The concrete encode run used by witnesses. -/
def encRes0 : Except String (List Nat × List (List Nat)) :=
  encode_with_trees P0 cfg0 0 id0 data0

/-- The encoded output of the concrete encode run. -/
def enc0 : List Nat :=
  match encRes0 with
  | .ok (o, _) => o
  | .error _ => []

/-- The tree handles of the concrete encode run. -/
def trees0 : List (List Nat) :=
  match encRes0 with
  | .ok (_, t) => t
  | .error _ => []

@[simp] theorem NODE_SIZE_eq : NODE_SIZE = 32 := rfl

theorem take_app_len (xs ys : List Nat) (k : Nat) :
    (xs ++ ys).take (xs.length + k) = xs ++ ys.take k := by
  induction xs with
  | nil => simp
  | cons a t ih =>
    have h : (a :: t).length + k = (t.length + k) + 1 := by
      simp [List.length_cons]; omega
    rw [h, List.cons_append, List.take_succ_cons, ih]
    simp

theorem drop_app_len (xs ys : List Nat) (k : Nat) :
    (xs ++ ys).drop (xs.length + k) = ys.drop k := by
  induction xs with
  | nil => simp
  | cons a t ih =>
    have h : (a :: t).length + k = (t.length + k) + 1 := by
      simp [List.length_cons]; omega
    rw [h, List.cons_append, List.drop_succ_cons, ih]

theorem fromLE_append (xs ys : List Nat) :
    fromLE (xs ++ ys) = fromLE xs + 256 ^ xs.length * fromLE ys := by
  induction xs with
  | nil => simp [fromLE]
  | cons b t ih => simp [fromLE, ih, pow_succ]; ring

theorem fromLE_lt (xs : List Nat) (h : ∀ b ∈ xs, b < 256) :
    fromLE xs < 256 ^ xs.length := by
  induction xs with
  | nil => simp [fromLE]
  | cons b t ih =>
    have hb : b < 256 := h b (by simp)
    have ht : fromLE t < 256 ^ t.length := ih (fun x hx => h x (by simp [hx]))
    have h1 : b + 256 * fromLE t < 256 * (fromLE t + 1) := by omega
    have h2 : 256 * (fromLE t + 1) ≤ 256 * 256 ^ t.length := by
      exact Nat.mul_le_mul_left 256 (by omega)
    calc fromLE (b :: t) = b + 256 * fromLE t := rfl
      _ < 256 * (fromLE t + 1) := h1
      _ ≤ 256 * 256 ^ t.length := h2
      _ = 256 ^ (t.length + 1) := by rw [pow_succ]; ring
      _ = 256 ^ (b :: t).length := by simp

theorem fromLE_toLE (k : Nat) : ∀ v, fromLE (toLE k v) = v % 256 ^ k := by
  induction k with
  | zero => intro v; simp [toLE, fromLE, Nat.mod_one]
  | succ k ih =>
    intro v
    have hmul : (256 : Nat) ^ (k + 1) = 256 * 256 ^ k := by rw [pow_succ]; ring
    calc fromLE (toLE (k + 1) v) = v % 256 + 256 * (v / 256 % 256 ^ k) := by
          simp [toLE, fromLE, ih]
      _ = v % (256 * 256 ^ k) := (Nat.mod_mul).symm
      _ = v % 256 ^ (k + 1) := by rw [hmul]

theorem toLE_fromLE (xs : List Nat) (h : ∀ b ∈ xs, b < 256) :
    toLE xs.length (fromLE xs) = xs := by
  induction xs with
  | nil => simp [toLE]
  | cons b t ih =>
    have hb : b < 256 := h b (by simp)
    have h1 : (b + 256 * fromLE t) % 256 = b := by
      rw [Nat.add_mul_mod_self_left, Nat.mod_eq_of_lt hb]
    have h2 : (b + 256 * fromLE t) / 256 = fromLE t := by
      rw [Nat.add_mul_div_left _ _ (by norm_num : (0:Nat) < 256),
        Nat.div_eq_of_lt hb]; omega
    have ht := ih (fun x hx => h x (by simp [hx]))
    simp only [List.length_cons, fromLE, toLE, h1, h2, ht]

theorem toLE_length (k : Nat) : ∀ v, (toLE k v).length = k := by
  induction k with
  | zero => intro v; simp [toLE]
  | succ k ih => intro v; simp [toLE, ih]

theorem toLE_bytes_lt (k : Nat) : ∀ v, ∀ b ∈ toLE k v, b < 256 := by
  induction k with
  | zero => intro v b hb; simp [toLE] at hb
  | succ k ih =>
    intro v b hb
    simp only [toLE, List.mem_cons] at hb
    rcases hb with h | h
    · subst h; exact Nat.mod_lt _ (by norm_num)
    · exact ih _ b h

theorem toLE32_length (v : Nat) : (toLE32 v).length = 32 := toLE_length 32 v

theorem fromLE_toLE32 (v : Nat) (h : v < 256 ^ 32) : fromLE (toLE32 v) = v := by
  rw [toLE32, fromLE_toLE, Nat.mod_eq_of_lt h]

theorem rModulus_lt_2pow : rModulus < 256 ^ 32 := by norm_num [rModulus]

theorem two_pow_254_lt_rModulus : 2 ^ 254 < rModulus := by norm_num [rModulus]

theorem truncate_hash_length (h : List Nat) (hl : h.length = 32) :
    (truncate_hash h).length = 32 := by
  simp [truncate_hash, hl]

theorem truncate_hash_bytes (h : List Nat) (hb : ∀ b ∈ h, b < 256) :
    ∀ b ∈ truncate_hash h, b < 256 := by
  intro b hmem
  simp only [truncate_hash, List.mem_append, List.mem_singleton] at hmem
  rcases hmem with hm | hm
  · exact hb b (List.take_subset _ _ hm)
  · subst hm
    have : h.getD 31 0 % 64 < 64 := Nat.mod_lt _ (by norm_num)
    omega

theorem fromLE_truncate_lt (h : List Nat) (hl : h.length = 32)
    (hb : ∀ b ∈ h, b < 256) : fromLE (truncate_hash h) < 2 ^ 254 := by
  have htk : (h.take 31).length = 31 := by simp [hl]
  have h1 : fromLE (h.take 31) < 256 ^ 31 := by
    have := fromLE_lt (h.take 31) (fun b hbm => hb b (List.take_subset _ _ hbm))
    rwa [htk] at this
  have h2 : h.getD 31 0 % 64 < 64 := Nat.mod_lt _ (by norm_num)
  have h3 : fromLE (truncate_hash h)
      = fromLE (h.take 31) + 256 ^ 31 * (h.getD 31 0 % 64) := by
    simp [truncate_hash, fromLE_append, htk, fromLE]
  have h4 : (2 : Nat) ^ 254 = 256 ^ 31 * 64 := by norm_num
  rw [h3, h4]
  have h5 : 256 ^ 31 * (h.getD 31 0 % 64) ≤ 256 ^ 31 * 63 :=
    Nat.mul_le_mul_left _ (by omega)
  omega

theorem fromLE_truncate_lt_r (h : List Nat) (hl : h.length = 32)
    (hb : ∀ b ∈ h, b < 256) : fromLE (truncate_hash h) < rModulus :=
  lt_trans (fromLE_truncate_lt h hl hb) two_pow_254_lt_rModulus

theorem rangeList_length (s : Nat) : ∀ n, (rangeList s n).length = n := by
  intro n
  induction n generalizing s with
  | zero => simp [rangeList]
  | succ n ih => simp [rangeList, ih]

theorem rangeList_shift (s : Nat) : ∀ n, rangeList (s + 1) n = (rangeList s n).map (· + 1) := by
  intro n
  induction n generalizing s with
  | zero => simp [rangeList]
  | succ n ih => simp [rangeList, ih]

theorem mem_rangeList {i s n : Nat} : i ∈ rangeList s n ↔ s ≤ i ∧ i < s + n := by
  induction n generalizing s with
  | zero =>
    simp only [rangeList, List.not_mem_nil, false_iff]
    omega
  | succ n ih => simp [rangeList, ih]; omega

theorem join_length_const (L : List (List Nat))
    (h : ∀ x ∈ L, x.length = NODE_SIZE) :
    L.join.length = NODE_SIZE * L.length := by
  induction L with
  | nil => simp
  | cons x t ih =>
    have hx : x.length = NODE_SIZE := h x (by simp)
    have ht := ih (fun y hy => h y (by simp [hy]))
    simp [hx, ht, Nat.mul_succ]; ring

theorem readNode_zero (l : List Nat) : readNode l 0 = l.take NODE_SIZE := by
  simp [readNode]

theorem readNode_succ (l : List Nat) (i : Nat) :
    readNode l (i + 1) = readNode (l.drop NODE_SIZE) i := by
  simp only [readNode, List.drop_drop]
  congr 2
  ring

theorem readNode_join (ns : List (List Nat))
    (hn : ∀ x ∈ ns, x.length = NODE_SIZE) :
    ∀ i, i < ns.length → readNode ns.join i = ns.getD i [] := by
  induction ns with
  | nil => intro i hi; simp at hi
  | cons x t ih =>
    intro i hi
    cases i with
    | zero =>
      have hx : x.length = NODE_SIZE := hn x (by simp)
      rw [readNode_zero]
      show (x ++ t.join).take NODE_SIZE = _
      rw [← hx, List.take_left]
      rfl
    | succ i =>
      have hx : x.length = NODE_SIZE := hn x (by simp)
      rw [readNode_succ]
      show readNode ((x ++ t.join).drop NODE_SIZE) i = _
      rw [← hx, List.drop_left]
      exact ih (fun y hy => hn y (by simp [hy])) i (by simpa using hi)

theorem join_readNode : ∀ (m : Nat) (l : List Nat),
    l.length = NODE_SIZE * m →
    ((rangeList 0 m).map (readNode l)).join = l := by
  intro m
  induction m with
  | zero =>
    intro l hl
    simp at hl
    subst hl
    simp [rangeList]
  | succ m ih =>
    intro l hl
    have hshift : rangeList 1 m = (rangeList 0 m).map (· + 1) := rangeList_shift 0 m
    have hf : (fun i => readNode l (i + 1)) = fun i => readNode (l.drop NODE_SIZE) i :=
      funext (readNode_succ l)
    have hdl : (l.drop NODE_SIZE).length = NODE_SIZE * m := by
      simp [hl, Nat.mul_succ]
    calc ((rangeList 0 (m + 1)).map (readNode l)).join
        = readNode l 0 ++ ((rangeList 1 m).map (readNode l)).join := by
          simp [rangeList]
      _ = l.take NODE_SIZE ++ (((rangeList 0 m).map (· + 1)).map (readNode l)).join := by
          rw [readNode_zero, hshift]
      _ = l.take NODE_SIZE ++ ((rangeList 0 m).map (readNode (l.drop NODE_SIZE))).join := by
          rw [List.map_map]
          have hcomp : readNode l ∘ (fun x => x + 1)
              = fun i => readNode (l.drop NODE_SIZE) i := by
            funext i; exact readNode_succ l i
          rw [hcomp]
      _ = l.take NODE_SIZE ++ l.drop NODE_SIZE := by rw [ih _ hdl]
      _ = l := List.take_append_drop _ _

theorem setChunk_length (buf : List Nat) (i : Nat) (v : List Nat)
    (hv : v.length = NODE_SIZE) (hle : NODE_SIZE * i + NODE_SIZE ≤ buf.length) :
    (setChunk buf i v).length = buf.length := by
  simp only [NODE_SIZE_eq] at hv hle
  simp only [setChunk, NODE_SIZE_eq, List.length_append, List.length_take,
    List.length_drop, hv]
  omega

theorem join_cons_eq {α : Type} (x : List α) (xs : List (List α)) :
    (x :: xs).join = x ++ xs.join := rfl

theorem foldl_setChunk (f : Nat → List Nat) (hf : ∀ i, (f i).length = NODE_SIZE) :
    ∀ (cnt j : Nat) (buf : List Nat), buf.length = NODE_SIZE * (j + cnt) →
    (rangeList j cnt).foldl (fun b i => setChunk b i (f i)) buf
      = buf.take (NODE_SIZE * j) ++ ((rangeList j cnt).map f).join := by
  intro cnt
  induction cnt with
  | zero =>
    intro j buf hb
    simp only [rangeList, List.foldl_nil, List.map_nil, List.join_nil,
      List.append_nil]
    have hb' : NODE_SIZE * j = buf.length := by
      rw [hb]; ring
    rw [hb', List.take_length]
  | succ cnt ih =>
    intro j buf hb
    have hfj := hf j
    have hle : NODE_SIZE * j + NODE_SIZE ≤ buf.length := by
      rw [hb]
      calc NODE_SIZE * j + NODE_SIZE = NODE_SIZE * (j + 1) := by ring
        _ ≤ NODE_SIZE * (j + (cnt + 1)) := Nat.mul_le_mul_left _ (by omega)
    have hb' : (setChunk buf j (f j)).length = NODE_SIZE * ((j + 1) + cnt) := by
      rw [setChunk_length buf j (f j) hfj hle, hb]; ring
    have step : (rangeList j (cnt + 1)).foldl (fun b i => setChunk b i (f i)) buf
        = (rangeList (j + 1) cnt).foldl (fun b i => setChunk b i (f i))
            (setChunk buf j (f j)) := by
      simp [rangeList]
    rw [step, ih (j + 1) _ hb']
    have hlen1 : (buf.take (NODE_SIZE * j)).length = NODE_SIZE * j := by
      rw [List.length_take]
      omega
    have htake : (setChunk buf j (f j)).take (NODE_SIZE * (j + 1))
        = buf.take (NODE_SIZE * j) ++ f j := by
      unfold setChunk
      rw [List.append_assoc]
      calc (buf.take (NODE_SIZE * j) ++ (f j ++ buf.drop (NODE_SIZE * j + NODE_SIZE))).take
              (NODE_SIZE * (j + 1))
          = (buf.take (NODE_SIZE * j) ++ (f j ++ buf.drop (NODE_SIZE * j + NODE_SIZE))).take
              ((buf.take (NODE_SIZE * j)).length + NODE_SIZE) := by
            have hidx : NODE_SIZE * (j + 1) = NODE_SIZE * j + NODE_SIZE := by ring
            rw [hlen1, hidx]
        _ = buf.take (NODE_SIZE * j) ++ (f j ++ buf.drop (NODE_SIZE * j + NODE_SIZE)).take NODE_SIZE :=
            take_app_len _ _ _
        _ = buf.take (NODE_SIZE * j) ++ f j := by
            rw [← hfj, List.take_left]
    rw [htake]
    have hjoin : (rangeList j (cnt + 1)).map f = f j :: (rangeList (j + 1) cnt).map f := by
      simp [rangeList]
    rw [hjoin]
    simp [List.append_assoc]

theorem writeNodes_eq_join (f : Nat → List Nat) (buf : List Nat) (m : Nat)
    (hb : buf.length = NODE_SIZE * m) (hf : ∀ i, (f i).length = NODE_SIZE) :
    writeNodes f buf = ((rangeList 0 m).map f).join := by
  unfold writeNodes
  have hm : buf.length / NODE_SIZE = m := by
    rw [hb]; exact Nat.mul_div_cancel_left m (by norm_num [NODE_SIZE])
  rw [hm]
  have := foldl_setChunk f hf m 0 buf (by simpa using hb)
  simpa using this

theorem map_node_length (f : Nat → List Nat) (hf : ∀ i, (f i).length = NODE_SIZE)
    (idxs : List Nat) : (idxs.map f).join.length = NODE_SIZE * idxs.length := by
  rw [join_length_const _ (by intro x hx; obtain ⟨i, _, rfl⟩ := List.mem_map.mp hx; exact hf i)]
  simp

theorem foldl_input_acc {α : Type} (g : α → List (List Nat)) (idxs : List α) :
    ∀ h : Sha256, (idxs.foldl (fun h i => h.input (g i)) h).acc
      = h.acc ++ (idxs.map (fun i => (g i).join)).join := by
  induction idxs with
  | nil => intro h; simp
  | cons i t ih =>
    intro h
    rw [List.foldl_cons, ih]
    simp [Sha256.input, List.append_assoc]

theorem join_map_join {α : Type} (x : List (List (List α))) :
    (x.map List.join).join = x.join.join := by
  induction x with
  | nil => simp
  | cons a t ih => simp [ih]

theorem groups_count_nil (k : Nat) (hk : 0 < k) : (0 + k - 1) / k = 0 :=
  Nat.div_eq_of_lt (by omega)

theorem groups_cover {α : Type} (k : Nat) (hk : 0 < k) :
    ∀ (n : Nat) (vals : List α), vals.length ≤ n →
    ((rangeList 0 ((vals.length + k - 1) / k)).map
        (fun g => (vals.drop (g * k)).take k)).join = vals := by
  intro n
  induction n with
  | zero =>
    intro vals hv
    have : vals = [] := List.length_eq_zero.mp (by omega)
    subst this
    simp [groups_count_nil k hk, rangeList]
  | succ n ih =>
    intro vals hv
    rcases vals with _ | ⟨a, t⟩
    · simp [groups_count_nil k hk, rangeList]
    · have hlen : (a :: t).length = t.length + 1 := by simp
      have hg : ((a :: t).length + k - 1) / k = ((a :: t).length - 1) / k + 1 := by
        have h1 : (a :: t).length + k - 1 = ((a :: t).length - 1) + k := by
          simp only [List.length_cons]
          omega
        rw [h1, Nat.add_div_right _ hk]
      have hGeq : ((a :: t).length - 1) / k
          = (((a :: t).drop k).length + k - 1) / k := by
        rcases Nat.lt_or_ge ((a :: t).length) (k + 1) with hsmall | hbig
        · have hd : ((a :: t).drop k).length = 0 := by
            rw [List.length_drop]
            omega
          rw [hd]
          rw [Nat.div_eq_of_lt (by omega), Nat.div_eq_of_lt (by omega)]
        · have hd : ((a :: t).drop k).length = (a :: t).length - k :=
            List.length_drop _ _
          rw [hd]
          congr 1
          omega
      rw [hg]
      have hrl : (rangeList 0 (((a :: t).length - 1) / k)).map
            (fun g => ((a :: t).drop ((g + 1) * k)).take k)
          = (rangeList 0 ((((a :: t).drop k).length + k - 1) / k)).map
              (fun g => (((a :: t).drop k).drop (g * k)).take k) := by
        rw [← hGeq]
        apply List.map_congr_left
        intro g _
        rw [List.drop_drop]
        congr 2
        ring
      have hstep : rangeList 0 (((a :: t).length - 1) / k + 1)
          = 0 :: (rangeList 0 (((a :: t).length - 1) / k)).map (· + 1) := by
        simp [rangeList, rangeList_shift]
      rw [hstep]
      have hdrop_le : ((a :: t).drop k).length ≤ n := by
        simp only [List.length_drop, List.length_cons] at hv ⊢
        omega
      rw [List.map_cons, join_cons_eq, List.map_map]
      have hcomp : ((fun g => ((a :: t).drop (g * k)).take k) ∘ fun x => x + 1)
          = fun g => ((a :: t).drop ((g + 1) * k)).take k := rfl
      rw [hcomp, hrl, ih _ hdrop_le]
      show ((a :: t).drop (0 * k)).take k ++ (a :: t).drop k = a :: t
      rw [Nat.zero_mul, List.drop_zero]
      exact List.take_append_drop k (a :: t)

theorem batch_hash_acc (dg : List Nat → List Nat) (k degree : Nat)
    (hasher : Sha256) (parents : List Nat) (layer_in : List Nat) (hk : 0 < k) :
    batch_hash dg k degree hasher parents layer_in
      = dg (hasher.acc ++ (parents.map (readNode layer_in)).join) := by
  rw [show batch_hash dg k degree hasher parents layer_in
      = ((rangeList 0 (((parents.map (readNode layer_in)).length + k - 1) / k)).foldl
          (fun h g => h.input (((parents.map (readNode layer_in)).drop (g * k)).take k))
          hasher).finish dg from rfl]
  unfold Sha256.finish
  rw [foldl_input_acc]
  congr 2
  calc ((rangeList 0 (((parents.map (readNode layer_in)).length + k - 1) / k)).map
          (fun g => (((parents.map (readNode layer_in)).drop (g * k)).take k).join)).join
      = (((rangeList 0 (((parents.map (readNode layer_in)).length + k - 1) / k)).map
          (fun g => ((parents.map (readNode layer_in)).drop (g * k)).take k)).map
            List.join).join := by
        rw [List.map_map]
        rfl
    _ = (((rangeList 0 (((parents.map (readNode layer_in)).length + k - 1) / k)).map
          (fun g => ((parents.map (readNode layer_in)).drop (g * k)).take k)).join).join := by
        rw [join_map_join]
    _ = (parents.map (readNode layer_in)).join := by
        rw [groups_cover k hk _ _ (le_refl _)]

theorem trunc_dg_props (dg : List Nat → List Nat) (hdg : DigestValid dg)
    (x : List Nat) :
    (truncate_hash (dg x)).length = NODE_SIZE ∧
      (∀ b ∈ truncate_hash (dg x), b < 256) ∧
      fromLE (truncate_hash (dg x)) < rModulus := by
  obtain ⟨hl, hb⟩ := hdg x
  refine ⟨?_, truncate_hash_bytes _ hb, fromLE_truncate_lt_r _ hl hb⟩
  simpa using truncate_hash_length _ hl

theorem maskNode_props (P : Primitives) (hdg : DigestValid P.dg)
    (w : Nat) (rid : List Nat) (i : Nat) :
    (maskNode P w rid i).length = NODE_SIZE ∧
      (∀ b ∈ maskNode P w rid i, b < 256) ∧
      fromLE (maskNode P w rid i) < rModulus :=
  trunc_dg_props P.dg hdg _

theorem expanderNode_props (P : Primitives) (hdg : DigestValid P.dg)
    (c : Config) (w : Nat) (rid : List Nat) (li : Nat) (lin : List Nat)
    (i : Nat) :
    (expanderNode P c w rid li lin i).length = NODE_SIZE ∧
      (∀ b ∈ expanderNode P c w rid li lin i, b < 256) ∧
      fromLE (expanderNode P c w rid li lin i) < rModulus :=
  trunc_dg_props P.dg hdg _

theorem butterflyNode_props (P : Primitives) (hdg : DigestValid P.dg)
    (c : Config) (w : Nat) (rid : List Nat) (li : Nat) (lin : List Nat)
    (i : Nat) :
    (butterflyNode P c w rid li lin i).length = NODE_SIZE ∧
      (∀ b ∈ butterflyNode P c w rid li lin i, b < 256) ∧
      fromLE (butterflyNode P c w rid li lin i) < rModulus :=
  trunc_dg_props P.dg hdg _

theorem keyBytes_props (P : Primitives) (hdg : DigestValid P.dg)
    (c : Config) (w : Nat) (rid : List Nat) (li : Nat) (lin : List Nat)
    (i : Nat) :
    (truncate_hash (butterflyDigest P c w rid li lin i)).length = NODE_SIZE ∧
      (∀ b ∈ truncate_hash (butterflyDigest P c w rid li lin i), b < 256) ∧
      fromLE (truncate_hash (butterflyDigest P c w rid li lin i)) < rModulus :=
  trunc_dg_props P.dg hdg _

theorem try_from_bytes_some (bs : List Nat) (h32 : bs.length = 32)
    (hlt : fromLE bs < rModulus) : try_from_bytes bs = some (fromLE bs) := by
  simp [try_from_bytes, h32, hlt]

theorem try_from_bytes_of_ne (bs : List Nat) (h : try_from_bytes bs ≠ none) :
    try_from_bytes bs = some (fromLE bs) ∧ bs.length = 32 ∧
      fromLE bs < rModulus := by
  unfold try_from_bytes at *
  split_ifs at h with hc
  · simp [hc.1, hc.2]
  · simp at h

theorem try_from_bytes_toLE32 (v : Nat) (hv : v < rModulus) :
    try_from_bytes (toLE32 v) = some v := by
  have h1 : fromLE (toLE32 v) = v := by
    apply fromLE_toLE32
    calc v < rModulus := hv
      _ < 256 ^ 32 := rModulus_lt_2pow
  rw [try_from_bytes]
  simp [toLE32_length, h1, hv]

theorem mask_layer_ok (P : Primitives) (c : Config) (w : Nat) (rid : List Nat)
    (lout : List Nat) (h : lout.length = c.n) :
    mask_layer P c w rid lout = (writeNodes (maskNode P w rid) lout, none) := by
  simp [mask_layer, h]

theorem mask_layer_join (P : Primitives) (hdg : DigestValid P.dg) (c : Config)
    (w : Nat) (rid : List Nat) (lout : List Nat) (m : Nat)
    (h : lout.length = c.n) (hm : c.n = NODE_SIZE * m) :
    mask_layer P c w rid lout
      = (((rangeList 0 m).map (maskNode P w rid)).join, none) := by
  rw [mask_layer_ok P c w rid lout h]
  rw [writeNodes_eq_join _ _ m (by rw [h, hm])
    (fun i => (maskNode_props P hdg w rid i).1)]

theorem expander_layer_ok (P : Primitives) (c : Config) (w : Nat)
    (rid : List Nat) (li : Nat) (lin lout : List Nat)
    (h1 : lin.length = lout.length) (h2 : lout.length = c.n)
    (h3 : 1 < li) (h4 : li ≤ c.num_expander_layers) :
    expander_layer P c w rid li lin lout
      = (writeNodes (expanderNode P c w rid li lin) lout, none) := by
  simp [expander_layer, h1, h2, h3, h4]

theorem expander_layer_join (P : Primitives) (hdg : DigestValid P.dg)
    (c : Config) (w : Nat) (rid : List Nat) (li : Nat) (lin lout : List Nat)
    (m : Nat) (h1 : lin.length = lout.length) (h2 : lout.length = c.n)
    (h3 : 1 < li) (h4 : li ≤ c.num_expander_layers)
    (hm : c.n = NODE_SIZE * m) :
    expander_layer P c w rid li lin lout
      = (((rangeList 0 m).map (expanderNode P c w rid li lin)).join, none) := by
  rw [expander_layer_ok P c w rid li lin lout h1 h2 h3 h4]
  rw [writeNodes_eq_join _ _ m (by rw [h2, hm])
    (fun i => (expanderNode_props P hdg c w rid li lin i).1)]

theorem butterfly_layer_ok (P : Primitives) (c : Config) (w : Nat)
    (rid : List Nat) (li : Nat) (lin lout : List Nat)
    (h1 : lin.length = lout.length) (h2 : lout.length = c.n)
    (h3 : c.num_expander_layers < li)
    (h4 : li < c.num_expander_layers + c.num_butterfly_layers)
    (h5 : c.degree_butterfly % 2 = 0) :
    butterfly_layer P c w rid li lin lout
      = (writeNodes (butterflyNode P c w rid li lin) lout, none) := by
  simp [butterfly_layer, h1, h2, h3, h4, h5]

theorem butterfly_layer_join (P : Primitives) (hdg : DigestValid P.dg)
    (c : Config) (w : Nat) (rid : List Nat) (li : Nat) (lin lout : List Nat)
    (m : Nat) (h1 : lin.length = lout.length) (h2 : lout.length = c.n)
    (h3 : c.num_expander_layers < li)
    (h4 : li < c.num_expander_layers + c.num_butterfly_layers)
    (h5 : c.degree_butterfly % 2 = 0) (hm : c.n = NODE_SIZE * m) :
    butterfly_layer P c w rid li lin lout
      = (((rangeList 0 m).map (butterflyNode P c w rid li lin)).join, none) := by
  rw [butterfly_layer_ok P c w rid li lin lout h1 h2 h3 h4 h5]
  rw [writeNodes_eq_join _ _ m (by rw [h2, hm])
    (fun i => (butterflyNode_props P hdg c w rid li lin i).1)]

theorem foldl_setChunk_pres_length (f : Nat → List Nat)
    (hf : ∀ i, (f i).length = NODE_SIZE) :
    ∀ (idxs : List Nat) (buf : List Nat),
    (∀ i ∈ idxs, NODE_SIZE * i + NODE_SIZE ≤ buf.length) →
    (idxs.foldl (fun b i => setChunk b i (f i)) buf).length = buf.length := by
  intro idxs
  induction idxs with
  | nil => intro buf _; simp
  | cons j rest ih =>
    intro buf hb
    rw [List.foldl_cons]
    have hsc : (setChunk buf j (f j)).length = buf.length :=
      setChunk_length buf j (f j) (hf j) (hb j (by simp))
    rw [ih (setChunk buf j (f j)) (by rw [hsc]; intro i hi; exact hb i (by simp [hi])), hsc]

theorem writeNodes_length (f : Nat → List Nat) (buf : List Nat)
    (hf : ∀ i, (f i).length = NODE_SIZE) :
    (writeNodes f buf).length = buf.length := by
  unfold writeNodes
  apply foldl_setChunk_pres_length f hf
  intro i hi
  rw [mem_rangeList] at hi
  have h1 : i + 1 ≤ buf.length / NODE_SIZE := by omega
  calc NODE_SIZE * i + NODE_SIZE = NODE_SIZE * (i + 1) := by ring
    _ ≤ NODE_SIZE * (buf.length / NODE_SIZE) := Nat.mul_le_mul_left _ h1
    _ = (buf.length / NODE_SIZE) * NODE_SIZE := by ring
    _ ≤ buf.length := Nat.div_mul_le_self _ _

theorem edLoop_none_valid (P : Primitives) (c : Config) (w : Nat)
    (rid : List Nat) (li : Nat) (lin data : List Nat) (op : Nat → Nat → Nat) :
    ∀ (idxs : List Nat) (buf b : List Nat),
    edLoop P c w rid li lin data op idxs buf = (b, none) →
    ∀ i ∈ idxs,
      try_from_bytes (truncate_hash (butterflyDigest P c w rid li lin i)) ≠ none ∧
      try_from_bytes ((data.drop (NODE_SIZE * i)).take NODE_SIZE) ≠ none := by
  intro idxs
  induction idxs with
  | nil => intro buf b _ i hi; simp at hi
  | cons j rest ih =>
    intro buf b h i hi
    cases hk : try_from_bytes (truncate_hash (butterflyDigest P c w rid li lin j)) with
    | none => rw [edLoop, hk] at h; simp at h
    | some key =>
      cases hd : try_from_bytes ((data.drop (NODE_SIZE * j)).take NODE_SIZE) with
      | none => rw [edLoop, hk, hd] at h; simp at h
      | some d =>
        have h' : edLoop P c w rid li lin data op rest
            (setChunk buf j (toLE32 (op key d))) = (b, none) := by
          rw [edLoop, hk, hd] at h
          exact h
        rcases List.mem_cons.mp hi with rfl | hmem
        · exact ⟨by rw [hk]; simp, by rw [hd]; simp⟩
        · exact ih _ _ h' i hmem

theorem edLoop_eq_fold (P : Primitives) (c : Config) (w : Nat)
    (rid : List Nat) (li : Nat) (lin data : List Nat) (op : Nat → Nat → Nat) :
    ∀ (idxs : List Nat) (buf : List Nat),
    (∀ i ∈ idxs,
      try_from_bytes (truncate_hash (butterflyDigest P c w rid li lin i)) ≠ none ∧
      try_from_bytes ((data.drop (NODE_SIZE * i)).take NODE_SIZE) ≠ none) →
    edLoop P c w rid li lin data op idxs buf
      = (idxs.foldl (fun bf i => setChunk bf i
          (toLE32 (op (fromLE (truncate_hash (butterflyDigest P c w rid li lin i)))
            (fromLE ((data.drop (NODE_SIZE * i)).take NODE_SIZE))))) buf, none) := by
  intro idxs
  induction idxs with
  | nil => intro buf _; simp [edLoop]
  | cons j rest ih =>
    intro buf hv
    obtain ⟨hk, hd⟩ := hv j (by simp)
    obtain ⟨hk', _, _⟩ := try_from_bytes_of_ne _ hk
    obtain ⟨hd', _, _⟩ := try_from_bytes_of_ne _ hd
    rw [edLoop, hk', hd', List.foldl_cons]
    exact ih _ (fun i hi => hv i (by simp [hi]))

theorem layerLoop_acc (step : Nat → List Nat → List Nat → List Nat × Option String) :
    ∀ (idxs : List Nat) (prev cur : List Nat) (acc : List (List Nat)),
    layerLoop step idxs prev cur acc
      = (layerLoop step idxs prev cur []).map (fun r => (r.1, r.2.1, acc ++ r.2.2)) := by
  intro idxs
  induction idxs with
  | nil => intro prev cur acc; simp [layerLoop, Except.map]
  | cons li rest ih =>
    intro prev cur acc
    rcases hs : step li prev cur with ⟨out, err⟩
    cases err with
    | some e => simp [layerLoop, hs, Except.map]
    | none =>
      have l1 : layerLoop step (li :: rest) prev cur acc
          = layerLoop step rest out prev (acc ++ [out]) := by
        rw [layerLoop, hs]
      have l2 : layerLoop step (li :: rest) prev cur []
          = layerLoop step rest out prev [out] := by
        rw [layerLoop, hs]
        simp
      rw [l1, l2, ih out prev (acc ++ [out]), ih out prev [out]]
      cases hbase : layerLoop step rest out prev [] with
      | error e => simp [Except.map]
      | ok r => simp [Except.map, List.append_assoc]

theorem layerLoop_count (step : Nat → List Nat → List Nat → List Nat × Option String) :
    ∀ (idxs : List Nat) (prev cur : List Nat) (acc : List (List Nat))
      (p q : List Nat) (z : List (List Nat)),
    layerLoop step idxs prev cur acc = .ok (p, q, z) →
    z.length = acc.length + idxs.length := by
  intro idxs
  induction idxs with
  | nil =>
    intro prev cur acc p q z h
    rw [layerLoop] at h
    injection h with h'
    obtain ⟨h1, h2, h3⟩ : prev = p ∧ cur = q ∧ acc = z := by simpa using h'
    subst h3
    simp
  | cons li rest ih =>
    intro prev cur acc p q z h
    rcases hs : step li prev cur with ⟨out, err⟩
    cases err with
    | some e => rw [layerLoop, hs] at h; exact absurd h (by simp)
    | none =>
      rw [layerLoop, hs] at h
      have := ih out prev (acc ++ [out]) p q z h
      simp at this
      simp [this]
      omega

theorem layerLoop_lengths (step : Nat → List Nat → List Nat → List Nat × Option String)
    (L : Nat)
    (hstep : ∀ li p q out, step li p q = (out, none) →
      p.length = L → q.length = L → out.length = L) :
    ∀ (idxs : List Nat) (prev cur : List Nat) (acc : List (List Nat))
      (p q : List Nat) (z : List (List Nat)),
    prev.length = L → cur.length = L →
    layerLoop step idxs prev cur acc = .ok (p, q, z) →
    p.length = L ∧ q.length = L := by
  intro idxs
  induction idxs with
  | nil =>
    intro prev cur acc p q z hp hq h
    rw [layerLoop] at h
    injection h with h'
    obtain ⟨h1, h2, h3⟩ : prev = p ∧ cur = q ∧ acc = z := by simpa using h'
    subst h1
    subst h2
    exact ⟨hp, hq⟩
  | cons li rest ih =>
    intro prev cur acc p q z hp hq h
    rcases hs : step li prev cur with ⟨out, err⟩
    cases err with
    | some e => rw [layerLoop, hs] at h; exact absurd h (by simp)
    | none =>
      rw [layerLoop, hs] at h
      exact ih out prev (acc ++ [out]) p q z (hstep li prev cur out hs hp hq) hp h

theorem numChunks_exact (l : List Nat) (m : Nat) (h : l.length = NODE_SIZE * m) :
    numChunks l = m := by
  unfold numChunks
  rw [h]
  simp only [NODE_SIZE_eq]
  omega

theorem bed_layer_join (P : Primitives) (c : Config) (w : Nat) (rid : List Nat)
    (li : Nat) (lin data lout : List Nat) (op : Nat → Nat → Nat) (m : Nat)
    (h1 : lin.length = lout.length) (h2 : lout.length = c.n)
    (h3 : li = c.num_expander_layers + c.num_butterfly_layers)
    (h5 : c.degree_butterfly % 2 = 0)
    (hm : c.n = NODE_SIZE * m) (hdata : data.length = c.n)
    (hvalid : ∀ i ∈ rangeList 0 m,
      try_from_bytes (truncate_hash (butterflyDigest P c w rid li lin i)) ≠ none ∧
      try_from_bytes ((data.drop (NODE_SIZE * i)).take NODE_SIZE) ≠ none) :
    butterfly_encode_decode_layer P c w rid li lin data lout op
      = (((rangeList 0 m).map (edNode P c w rid li lin data op)).join, none) := by
  have hcl : numChunks lout = m := numChunks_exact _ m (by rw [h2, hm])
  have hcd : numChunks data = m := numChunks_exact _ m (by rw [hdata, hm])
  unfold butterfly_encode_decode_layer
  rw [if_neg (by simp [h1]), if_neg (by simp [h2]), if_neg (by simp [h3]),
    if_neg (by simp [h5]), hcl, hcd, Nat.min_self]
  rw [edLoop_eq_fold P c w rid li lin data op (rangeList 0 m) lout hvalid]
  have hfold := foldl_setChunk (edNode P c w rid li lin data op)
    (fun i => toLE32_length _) m 0 lout (by rw [h2, hm]; ring_nf)
  rw [show (fun bf i => setChunk bf i
      (toLE32 (op (fromLE (truncate_hash (butterflyDigest P c w rid li lin i)))
        (fromLE ((data.drop (NODE_SIZE * i)).take NODE_SIZE)))))
      = fun bf i => setChunk bf i (edNode P c w rid li lin data op i) from rfl]
  rw [hfold]
  simp

theorem bed_layer_err (P : Primitives) (c : Config) (w : Nat) (rid : List Nat)
    (li : Nat) (lin data lout : List Nat) (op : Nat → Nat → Nat)
    (h : ¬(lin.length = lout.length ∧ lout.length = c.n ∧
        li = c.num_expander_layers + c.num_butterfly_layers ∧
        c.degree_butterfly % 2 = 0)) :
    (butterfly_encode_decode_layer P c w rid li lin data lout op).1 = lout ∧
    (butterfly_encode_decode_layer P c w rid li lin data lout op).2 ≠ none := by
  unfold butterfly_encode_decode_layer
  split_ifs with g1 g2 g3 g4
  · exact ⟨rfl, by simp⟩
  · exact ⟨rfl, by simp⟩
  · exact ⟨rfl, by simp⟩
  · exact ⟨rfl, by simp⟩
  · exact absurd ⟨not_not.mp g1, not_not.mp g2, not_not.mp g3, not_not.mp g4⟩ h

theorem mask_layer_none_iff (P : Primitives) (c : Config) (w : Nat)
    (rid : List Nat) (lout : List Nat) :
    (mask_layer P c w rid lout).2 = none ↔ lout.length = c.n := by
  by_cases h : lout.length = c.n <;> simp [mask_layer, h]

theorem mask_layer_err_unchanged (P : Primitives) (c : Config) (w : Nat)
    (rid : List Nat) (lout : List Nat)
    (h : (mask_layer P c w rid lout).2 ≠ none) :
    (mask_layer P c w rid lout).1 = lout := by
  by_cases hc : lout.length = c.n
  · simp [mask_layer, hc] at h
  · simp [mask_layer, hc]

theorem expander_layer_none_iff (P : Primitives) (c : Config) (w : Nat)
    (rid : List Nat) (li : Nat) (lin lout : List Nat) :
    (expander_layer P c w rid li lin lout).2 = none ↔
      (lin.length = lout.length ∧ lout.length = c.n ∧ 1 < li ∧
        li ≤ c.num_expander_layers) := by
  unfold expander_layer
  split_ifs with g1 g2 g3
  · constructor
    · intro hcon; simp at hcon
    · rintro ⟨a, -, -⟩; exact absurd a g1
  · constructor
    · intro hcon; simp at hcon
    · rintro ⟨-, a, -⟩; exact absurd a g2
  · constructor
    · intro _
      exact ⟨not_not.mp g1, not_not.mp g2, g3.1, g3.2⟩
    · intro _
      rfl
  · constructor
    · intro hcon; simp at hcon
    · rintro ⟨-, -, h3, h4⟩; exact absurd ⟨h3, h4⟩ g3

theorem expander_layer_err_unchanged (P : Primitives) (c : Config) (w : Nat)
    (rid : List Nat) (li : Nat) (lin lout : List Nat)
    (h : (expander_layer P c w rid li lin lout).2 ≠ none) :
    (expander_layer P c w rid li lin lout).1 = lout := by
  unfold expander_layer at h ⊢
  split_ifs at h ⊢ with g1 g2 g3
  · rfl
  · rfl
  · simp at h
  · rfl

theorem butterfly_layer_none_iff (P : Primitives) (c : Config) (w : Nat)
    (rid : List Nat) (li : Nat) (lin lout : List Nat) :
    (butterfly_layer P c w rid li lin lout).2 = none ↔
      (lin.length = lout.length ∧ lout.length = c.n ∧
        c.num_expander_layers < li ∧
        li < c.num_expander_layers + c.num_butterfly_layers ∧
        c.degree_butterfly % 2 = 0) := by
  unfold butterfly_layer
  split_ifs with g1 g2 g3 g4
  · constructor
    · intro hcon; simp at hcon
    · rintro ⟨a, -, -, -, -⟩; exact absurd a g1
  · constructor
    · intro hcon; simp at hcon
    · rintro ⟨-, a, -, -, -⟩; exact absurd a g2
  · constructor
    · intro hcon; simp at hcon
    · rintro ⟨-, -, -, -, h5⟩; exact absurd h5 g4
  · constructor
    · intro _
      exact ⟨not_not.mp g1, not_not.mp g2, g3.1, g3.2, not_not.mp g4⟩
    · intro _
      rfl
  · constructor
    · intro hcon; simp at hcon
    · rintro ⟨-, -, h3, h4, -⟩; exact absurd ⟨h3, h4⟩ g3

theorem butterfly_layer_err_unchanged (P : Primitives) (c : Config) (w : Nat)
    (rid : List Nat) (li : Nat) (lin lout : List Nat)
    (h : (butterfly_layer P c w rid li lin lout).2 ≠ none) :
    (butterfly_layer P c w rid li lin lout).1 = lout := by
  unfold butterfly_layer at h ⊢
  split_ifs at h ⊢ with g1 g2 g3 g4
  · rfl
  · rfl
  · rfl
  · simp at h
  · rfl


theorem layerLoop_ok_base (step : Nat -> List Nat -> List Nat -> List Nat × Option String)
    (idxs : List Nat) (prev cur : List Nat) (acc : List (List Nat))
    (x y : List Nat) (z : List (List Nat))
    (h : layerLoop step idxs prev cur acc = .ok (x, y, z)) :
    ∃ z0, layerLoop step idxs prev cur [] = .ok (x, y, z0) ∧ z = acc ++ z0 := by
  rw [layerLoop_acc] at h
  cases hbase : layerLoop step idxs prev cur [] with
  | error e => rw [hbase] at h; simp [Except.map] at h
  | ok r =>
    rw [hbase] at h
    obtain ⟨a, b, z0⟩ := r
    simp [Except.map] at h
    obtain ⟨h1, h2, h3⟩ := h
    subst h1
    subst h2
    subst h3
    refine ⟨z0, ?_, ?_⟩
    · rfl
    · rfl

theorem encode_ok_decomp (P : Primitives) (c : Config) (w : Nat)
    (rid data out : List Nat) (trees : List (List Nat))
    (h : encode_with_trees P c w rid data = .ok (out, trees)) :
    ∃ maskOut prev1 cur1 trees1 prev2 cur2 trees2,
      mask_layer P c w rid (List.replicate c.n 0) = (maskOut, none) ∧
      layerLoop (fun li p q => expander_layer P c w rid li p q)
        (rangeList 2 (c.num_expander_layers - 1)) maskOut
        (List.replicate c.n 0) [maskOut] = .ok (prev1, cur1, trees1) ∧
      layerLoop (fun li p q => butterfly_layer P c w rid li p q)
        (rangeList (c.num_expander_layers + 1)
          (c.num_layers - c.num_expander_layers - 1)) prev1 cur1 trees1
        = .ok (prev2, cur2, trees2) ∧
      butterfly_encode_layer P c w rid c.num_layers prev2 data cur2
        = (out, none) ∧
      trees = trees2 ++ [out] := by
  unfold encode_with_trees at h
  split at h
  next mo e heq => simp at h
  next mo heq =>
    split at h
    next e heq2 => simp at h
    next p1 c1 t1 heq2 =>
      split at h
      next e heq3 => simp at h
      next p2 c2 t2 heq3 =>
        split at h
        next o e heq4 => simp at h
        next o heq4 =>
          injection h with h5
          obtain ⟨ho, ht⟩ : o = out ∧ t2 ++ [o] = trees := by simpa using h5
          exact ⟨mo, p1, c1, t1, p2, c2, t2, heq, heq2, heq3,
            by rw [← ho]; exact heq4, by rw [← ht, ho]⟩

theorem expander_layer_none_out (P : Primitives) (hdg : DigestValid P.dg)
    (c : Config) (w : Nat) (rid : List Nat) (li : Nat) (lin lout out : List Nat)
    (h : expander_layer P c w rid li lin lout = (out, none)) :
    out.length = lout.length := by
  have h2 : (expander_layer P c w rid li lin lout).2 = none := by rw [h]
  obtain ⟨a, b, d, e⟩ := (expander_layer_none_iff P c w rid li lin lout).mp h2
  have hok := expander_layer_ok P c w rid li lin lout a b d e
  rw [hok] at h
  have hout : writeNodes (expanderNode P c w rid li lin) lout = out := by
    have := congrArg Prod.fst h
    simpa using this
  rw [← hout]
  exact writeNodes_length _ _ (fun i => (expanderNode_props P hdg c w rid li lin i).1)

theorem butterfly_layer_none_out (P : Primitives) (hdg : DigestValid P.dg)
    (c : Config) (w : Nat) (rid : List Nat) (li : Nat) (lin lout out : List Nat)
    (h : butterfly_layer P c w rid li lin lout = (out, none)) :
    out.length = lout.length := by
  have h2 : (butterfly_layer P c w rid li lin lout).2 = none := by rw [h]
  obtain ⟨a, b, d, e, f⟩ := (butterfly_layer_none_iff P c w rid li lin lout).mp h2
  have hok := butterfly_layer_ok P c w rid li lin lout a b d e f
  rw [hok] at h
  have hout : writeNodes (butterflyNode P c w rid li lin) lout = out := by
    have := congrArg Prod.fst h
    simpa using this
  rw [← hout]
  exact writeNodes_length _ _ (fun i => (butterflyNode_props P hdg c w rid li lin i).1)

theorem inverse_combine_combine (key d : Nat) (hk : key < rModulus)
    (hd : d < rModulus) : inverse_combine key (combine key d) = d := by
  unfold combine inverse_combine
  rw [Nat.mod_eq_of_lt hk, Nat.mod_add_mod]
  rw [show d + key + (rModulus - key) = d + rModulus from by omega]
  rw [Nat.add_mod_right]
  exact Nat.mod_eq_of_lt hd

theorem combine_lt (key d : Nat) : combine key d < rModulus :=
  Nat.mod_lt _ (by norm_num [rModulus])

theorem inverse_combine_lt (key e : Nat) : inverse_combine key e < rModulus :=
  Nat.mod_lt _ (by norm_num [rModulus])

theorem map_rangeList_getD (f : Nat → List Nat) :
    ∀ (m s i : Nat), i < m → ((rangeList s m).map f).getD i [] = f (s + i) := by
  intro m
  induction m with
  | zero => intro s i hi; omega
  | succ m ih =>
    intro s i hi
    cases i with
    | zero => simp [rangeList]
    | succ i =>
      have := ih (s + 1) i (by omega)
      simp only [rangeList, List.map_cons, List.getD_cons_succ]
      rw [this]
      congr 1
      omega

theorem readNode_map_join (f : Nat → List Nat) (m i : Nat)
    (hf : ∀ j, (f j).length = NODE_SIZE) (hi : i < m) :
    readNode ((rangeList 0 m).map f).join i = f i := by
  rw [readNode_join _ (by intro x hx; obtain ⟨j, _, rfl⟩ := List.mem_map.mp hx; exact hf j)
    i (by simp [rangeList_length]; omega)]
  have := map_rangeList_getD f m 0 i hi
  simpa using this

/-- Claim C1: for every valid (node-aligned) config, window index,
replica identifier and byte-valued data buffer of length `config.n`,
whenever `encode_with_trees` succeeds, running `decode` on its encoded
output returns a buffer byte-identical to the original data. -/
theorem c1_encode_decode_roundtrip (P : Primitives) (c : Config) (w : Nat)
    (rid data out : List Nat) (trees : List (List Nat))
    (hdg : DigestValid P.dg) (hn : NODE_SIZE ∣ c.n)
    (hdata : data.length = c.n) (hbytes : ∀ b ∈ data, b < 256)
    (henc : encode_with_trees P c w rid data = Except.ok (out, trees)) :
    decode P c w rid out = Except.ok data := by
  obtain ⟨mo, p1, c1, t1, p2, c2, t2, hmask, hloop1, hloop2, hfinal, -⟩ :=
    encode_ok_decomp P c w rid data out trees henc
  obtain ⟨m, hm⟩ := hn
  have hrep : (List.replicate c.n 0).length = c.n := by simp
  have hmo : writeNodes (maskNode P w rid) (List.replicate c.n 0) = mo := by
    have hok := mask_layer_ok P c w rid (List.replicate c.n 0) hrep
    rw [hok] at hmask
    exact congrArg Prod.fst hmask
  have hmolen : mo.length = c.n := by
    rw [← hmo, writeNodes_length _ _ (fun i => (maskNode_props P hdg w rid i).1), hrep]
  have hstep1 : ∀ li p q o, expander_layer P c w rid li p q = (o, none) →
      p.length = c.n → q.length = c.n → o.length = c.n := by
    intro li p q o h hp hq
    rw [expander_layer_none_out P hdg c w rid li p q o h, hq]
  obtain ⟨hp1, hc1⟩ := layerLoop_lengths _ c.n hstep1 _ mo (List.replicate c.n 0)
    [mo] p1 c1 t1 hmolen hrep hloop1
  have hstep2 : ∀ li p q o, butterfly_layer P c w rid li p q = (o, none) →
      p.length = c.n → q.length = c.n → o.length = c.n := by
    intro li p q o h hp hq
    rw [butterfly_layer_none_out P hdg c w rid li p q o h, hq]
  obtain ⟨hp2, hc2⟩ := layerLoop_lengths _ c.n hstep2 _ p1 c1 t1 p2 c2 t2 hp1 hc1 hloop2
  unfold butterfly_encode_layer at hfinal
  have hconds : p2.length = c2.length ∧ c2.length = c.n ∧
      c.num_layers = c.num_expander_layers + c.num_butterfly_layers ∧
      c.degree_butterfly % 2 = 0 := by
    by_contra hcon
    have herr := (bed_layer_err P c w rid c.num_layers p2 data c2 combine hcon).2
    rw [hfinal] at herr
    simp at herr
  have heven : c.degree_butterfly % 2 = 0 := hconds.2.2.2
  have hcl : numChunks c2 = m := numChunks_exact _ m (by rw [hc2, hm])
  have hcd : numChunks data = m := numChunks_exact _ m (by rw [hdata, hm])
  have hfinal' : edLoop P c w rid c.num_layers p2 data combine (rangeList 0 m) c2
      = (out, none) := by
    unfold butterfly_encode_decode_layer at hfinal
    rw [if_neg (by simp [hconds.1]), if_neg (by simp [hc2]),
      if_neg (by simp [Config.num_layers]), if_neg (by simp [heven]),
      hcl, hcd, Nat.min_self] at hfinal
    exact hfinal
  have hvalid := edLoop_none_valid P c w rid c.num_layers p2 data combine
    (rangeList 0 m) c2 out hfinal'
  have hbed := bed_layer_join P c w rid c.num_layers p2 data c2 combine m
    hconds.1 hc2 rfl heven hm hdata hvalid
  have hout : ((rangeList 0 m).map
      (edNode P c w rid c.num_layers p2 data combine)).join = out := by
    have h12 := hbed.symm.trans hfinal
    exact congrArg Prod.fst h12
  have houtlen : out.length = c.n := by
    rw [← hout, map_node_length (edNode P c w rid c.num_layers p2 data combine)
      (fun i => toLE32_length _), rangeList_length, ← hm]
  have hvalid' : ∀ i ∈ rangeList 0 m,
      try_from_bytes (truncate_hash (butterflyDigest P c w rid c.num_layers p2 i)) ≠ none ∧
      try_from_bytes ((out.drop (NODE_SIZE * i)).take NODE_SIZE) ≠ none := by
    intro i hi
    refine ⟨(hvalid i hi).1, ?_⟩
    have hi' : i < m := by
      have := mem_rangeList.mp hi
      omega
    have hread : (out.drop (NODE_SIZE * i)).take NODE_SIZE
        = edNode P c w rid c.num_layers p2 data combine i := by
      show readNode out i = _
      rw [← hout]
      exact readNode_map_join _ m i (fun j => toLE32_length _) hi'
    rw [hread]
    unfold edNode
    rw [try_from_bytes_toLE32 _ (combine_lt _ _)]
    simp
  have hdecbed := bed_layer_join P c w rid c.num_layers p2 out c2 inverse_combine m
    hconds.1 hc2 rfl heven hm houtlen hvalid'
  have hjoin_data : ((rangeList 0 m).map
      (edNode P c w rid c.num_layers p2 out inverse_combine)).join = data := by
    have hmapeq : (rangeList 0 m).map (edNode P c w rid c.num_layers p2 out inverse_combine)
        = (rangeList 0 m).map (readNode data) := by
      apply List.map_congr_left
      intro i hi
      have hi' : i < m := by
        have := mem_rangeList.mp hi
        omega
      obtain ⟨hk, hd⟩ := hvalid i hi
      obtain ⟨-, hklen, hklt⟩ := try_from_bytes_of_ne _ hk
      obtain ⟨-, hdlen, hdlt⟩ := try_from_bytes_of_ne _ hd
      have hdbytes : ∀ b ∈ (data.drop (NODE_SIZE * i)).take NODE_SIZE, b < 256 := by
        intro b hb
        exact hbytes b (List.drop_subset _ _ (List.take_subset _ _ hb))
      unfold edNode
      have hread : (out.drop (NODE_SIZE * i)).take NODE_SIZE
          = edNode P c w rid c.num_layers p2 data combine i := by
        show readNode out i = _
        rw [← hout]
        exact readNode_map_join _ m i (fun j => toLE32_length _) hi'
      rw [hread]
      unfold edNode
      rw [fromLE_toLE32 _ (lt_trans (combine_lt _ _) rModulus_lt_2pow)]
      rw [inverse_combine_combine _ _ hklt hdlt]
      have hchunk : toLE32 (fromLE ((data.drop (NODE_SIZE * i)).take NODE_SIZE))
          = (data.drop (NODE_SIZE * i)).take NODE_SIZE := by
        have h32 := toLE_fromLE _ hdbytes
        rw [hdlen] at h32
        exact h32
      rw [hchunk]
      rfl
    rw [hmapeq]
    exact join_readNode m data (by rw [hdata, hm])
  unfold decode
  obtain ⟨z1, hbase1, -⟩ := layerLoop_ok_base _ _ _ _ _ _ _ _ hloop1
  obtain ⟨z2, hbase2, -⟩ := layerLoop_ok_base _ _ _ _ _ _ _ _ hloop2
  simp only [hmask, hbase1, hbase2]
  unfold butterfly_decode_layer
  rw [hdecbed]
  show Except.ok (((rangeList 0 m).map
    (edNode P c w rid c.num_layers p2 out inverse_combine)).join) = Except.ok data
  rw [hjoin_data]

theorem p0_digest_valid : DigestValid P0.dg := by
  intro l
  constructor
  · simp [P0, dg0]
  · intro b hb
    simp [P0, dg0] at hb
    omega

/-- Witness for claim C1: the round trip evaluated at a concrete
single-node config, replica id and data buffer. -/
theorem c1_encode_decode_roundtrip_witness :
    decode P0 cfg0 0 id0 enc0 = Except.ok data0 :=
  c1_encode_decode_roundtrip P0 cfg0 0 id0 data0 enc0 trees0 p0_digest_valid
    (by decide) (by decide) (by decide) (by rfl)

/-- Claim C6: for every valid input (a config with at least one expander
and one butterfly layer), a successful `encode_with_trees` returns
exactly `num_expander_layers + num_butterfly_layers` tree handles, one
per produced layer in ascending layer order: the first handle is the
mask layer and the last is the final encoded layer. -/
theorem c6_tree_count (P : Primitives) (c : Config) (w : Nat)
    (rid data out : List Nat) (trees : List (List Nat))
    (hexp : 1 ≤ c.num_expander_layers) (hbf : 1 ≤ c.num_butterfly_layers)
    (henc : encode_with_trees P c w rid data = Except.ok (out, trees)) :
    trees.length = c.num_layers ∧
      trees.head? = some ((mask_layer P c w rid (List.replicate c.n 0)).1) ∧
      trees.getLast? = some out := by
  obtain ⟨mo, p1, c1, t1, p2, c2, t2, hmask, hloop1, hloop2, hfinal, htrees⟩ :=
    encode_ok_decomp P c w rid data out trees henc
  have hlen1 := layerLoop_count _ _ _ _ _ _ _ _ hloop1
  have hlen2 := layerLoop_count _ _ _ _ _ _ _ _ hloop2
  rw [rangeList_length] at hlen1 hlen2
  obtain ⟨z1, -, hz1⟩ := layerLoop_ok_base _ _ _ _ _ _ _ _ hloop1
  obtain ⟨z2, -, hz2⟩ := layerLoop_ok_base _ _ _ _ _ _ _ _ hloop2
  have hmo1 : (mask_layer P c w rid (List.replicate c.n 0)).1 = mo :=
    congrArg Prod.fst hmask
  refine ⟨?_, ?_, ?_⟩
  · rw [htrees]
    simp only [List.length_append, List.length_cons, List.length_nil]
    unfold Config.num_layers at hlen2 ⊢
    simp at hlen1 hlen2
    omega
  · rw [htrees, hz2, hz1, hmo1]
    simp
  · rw [htrees]
    simp

/-- Witness for claim C6: evaluated at the concrete single-node config;
two tree handles are returned. -/
theorem c6_tree_count_witness :
    trees0.length = cfg0.num_layers ∧
      trees0.head? = some ((mask_layer P0 cfg0 0 id0 (List.replicate cfg0.n 0)).1) ∧
      trees0.getLast? = some enc0 :=
  c6_tree_count P0 cfg0 0 id0 data0 enc0 trees0 (by decide) (by decide) (by rfl)

/-- Claim C4: for every layer, node index and window index,
`hash_prefix` returns exactly 32 bytes: the big-endian 4-byte encodings
of the three indices at bytes 0-3, 4-7 and 8-11, followed by 20 zero
bytes; in particular its value at (0,0,0) is 32 zero bytes and at
(1,2,3) it is [0,0,0,1, 0,0,0,2, 0,0,0,3] followed by 20 zero bytes. -/
theorem c4_hashPrefix_layout :
    (∀ layer node_index window_index : Nat,
      hash_prefix layer node_index window_index
        = toBE4 layer ++ toBE4 node_index ++ toBE4 window_index ++
            List.replicate 20 0 ∧
      ( hash_prefix layer node_index window_index).length = 32) ∧
    hash_prefix 0 0 0 = List.replicate 32 0 ∧
    hash_prefix 1 2 3 = [0, 0, 0, 1, 0, 0, 0, 2, 0, 0, 0, 3] ++
      List.replicate 20 0 := by
  refine ⟨fun l n w => ?_, by decide, by decide⟩
  have he : hash_prefix l n w
      = toBE4 l ++ toBE4 n ++ toBE4 w ++ List.replicate 20 0 := rfl
  exact ⟨he, by rw [he]; simp [toBE4]⟩

/-- Claim C9: `hash_prefix` is injective on `u32` triples: distinct
(layer, node index, window index) triples yield distinct 32-byte
prefixes. -/
theorem c9_hashPrefix_injective (l n w l' n' w' : Nat)
    (hl : l < 2 ^ 32) (hn : n < 2 ^ 32) (hw : w < 2 ^ 32)
    (hl' : l' < 2 ^ 32) (hn' : n' < 2 ^ 32) (hw' : w' < 2 ^ 32)
    (heq : hash_prefix l n w = hash_prefix l' n' w') :
    l = l' ∧ n = n' ∧ w = w' := by
  have he : ∀ a b c : Nat, hash_prefix a b c
      = toBE4 a ++ toBE4 b ++ toBE4 c ++ List.replicate 20 0 :=
    fun a b c => rfl
  rw [he, he] at heq
  simp [toBE4] at heq
  obtain ⟨e1, e2, e3, e4, e5, e6, e7, e8, e9, e10, e11, e12⟩ := heq
  refine ⟨?_, ?_, ?_⟩ <;> omega

/-- Witness for claim C9: applied at the triple (1,2,3) against itself. -/
theorem c9_hashPrefix_injective_witness :
    (1 : Nat) = 1 ∧ (2 : Nat) = 2 ∧ (3 : Nat) = 3 :=
  c9_hashPrefix_injective 1 2 3 1 2 3 (by decide) (by decide) (by decide)
    (by decide) (by decide) (by decide) (by rfl)

/-- Claim C2: for every digest function, every batching factor `k` that
evenly divides the degree, and every parent list of that degree, the
digest produced by `batch_hash` over the engine preloaded with the
prefix and replica id (as invoked per node by `expander_layer`) is
bit-identical to the digest obtained by feeding the same prefix, replica
id and parent node values into the hash sequentially, one value at a
time. -/
theorem c2_batch_hash_equiv (dg : List Nat → List Nat) (k degree : Nat)
    (pfx rid : List Nat) (parents layer_in : List Nat)
    (hk : 0 < k) (hdvd : k ∣ degree) (hlen : parents.length = degree) :
    batch_hash dg k degree (Sha256.new.input [pfx, rid]) parents layer_in
      = ((parents.map (readNode layer_in)).foldl
          (fun h v => h.input [v]) (Sha256.new.input [pfx, rid])).finish dg := by
  rw [batch_hash_acc dg k degree _ parents layer_in hk]
  unfold Sha256.finish
  rw [foldl_input_acc (fun v => [v]) (parents.map (readNode layer_in))]
  congr 1
  simp [Sha256.input, Sha256.new]
  rfl

/-- Witness for claim C2: evaluated with k = 2, degree = 4 and concrete
parents and input layer. -/
theorem c2_batch_hash_equiv_witness :
    batch_hash dg0 2 4 (Sha256.new.input [ hash_prefix 2 0 0, id0])
        [0, 0, 1, 1] (List.replicate 64 5)
      = (([0, 0, 1, 1].map (readNode (List.replicate 64 5))).foldl
          (fun h v => h.input [v])
          (Sha256.new.input [ hash_prefix 2 0 0, id0])).finish dg0 :=
  c2_batch_hash_equiv dg0 2 4 ( hash_prefix 2 0 0) id0 [0, 0, 1, 1]
    (List.replicate 64 5) (by decide) (by decide) (by decide)

theorem validLayer_join (f : Nat → List Nat) (m : Nat)
    (hf : ∀ i, (f i).length = NODE_SIZE)
    (hv : ∀ i < m, fromLE (f i) < rModulus) :
    ValidLayer ((rangeList 0 m).map f).join := by
  intro i hi
  have hlen : ((rangeList 0 m).map f).join.length = NODE_SIZE * m := by
    rw [map_node_length f hf, rangeList_length]
  rw [hlen] at hi
  have hi' : i < m := by
    have : NODE_SIZE * m / NODE_SIZE = m :=
      Nat.mul_div_cancel_left m (by norm_num [NODE_SIZE])
    omega
  rw [readNode_map_join f m i hf hi']
  exact hv i hi'

theorem decode_ok_decomp (P : Primitives) (c : Config) (w : Nat)
    (rid encArg dec : List Nat)
    (h : decode P c w rid encArg = .ok dec) :
    ∃ maskOut prev1 cur1 trees1 prev2 cur2 trees2,
      mask_layer P c w rid (List.replicate c.n 0) = (maskOut, none) ∧
      layerLoop (fun li p q => expander_layer P c w rid li p q)
        (rangeList 2 (c.num_expander_layers - 1)) maskOut
        (List.replicate c.n 0) [] = .ok (prev1, cur1, trees1) ∧
      layerLoop (fun li p q => butterfly_layer P c w rid li p q)
        (rangeList (c.num_expander_layers + 1)
          (c.num_layers - c.num_expander_layers - 1)) prev1 cur1 []
        = .ok (prev2, cur2, trees2) ∧
      butterfly_decode_layer P c w rid c.num_layers prev2 encArg cur2
        = (dec, none) := by
  unfold decode at h
  split at h
  next mo e heq => simp at h
  next mo heq =>
    split at h
    next e heq2 => simp at h
    next p1 c1 t1 heq2 =>
      split at h
      next e heq3 => simp at h
      next p2 c2 t2 heq3 =>
        split at h
        next o e heq4 => simp at h
        next o heq4 =>
          injection h with h5
          exact ⟨mo, p1, c1, t1, p2, c2, t2, heq, heq2, heq3,
            by rw [← h5]; exact heq4⟩

theorem bed_none_characterize (P : Primitives) (c : Config) (w : Nat)
    (rid : List Nat) (li : Nat) (lin data lout : List Nat)
    (op : Nat → Nat → Nat) (m : Nat) (hm : c.n = NODE_SIZE * m)
    (hdata : data.length = c.n)
    (hnone : (butterfly_encode_decode_layer P c w rid li lin data lout op).2
      = none) :
    butterfly_encode_decode_layer P c w rid li lin data lout op
      = (((rangeList 0 m).map (edNode P c w rid li lin data op)).join, none) := by
  have hconds : lin.length = lout.length ∧ lout.length = c.n ∧
      li = c.num_expander_layers + c.num_butterfly_layers ∧
      c.degree_butterfly % 2 = 0 := by
    by_contra hcon
    exact (bed_layer_err P c w rid li lin data lout op hcon).2 hnone
  have hfeq : butterfly_encode_decode_layer P c w rid li lin data lout op
      = ((butterfly_encode_decode_layer P c w rid li lin data lout op).1,
          none) := by
    rw [← hnone]
  have hcl : numChunks lout = m := numChunks_exact _ m (by rw [hconds.2.1, hm])
  have hcd : numChunks data = m := numChunks_exact _ m (by rw [hdata, hm])
  have hloop : edLoop P c w rid li lin data op (rangeList 0 m) lout
      = ((butterfly_encode_decode_layer P c w rid li lin data lout op).1,
          none) := by
    rw [← hfeq]
    unfold butterfly_encode_decode_layer
    rw [if_neg (by simp [hconds.1]), if_neg (by simp [hconds.2.1]),
      if_neg (by simp [hconds.2.2.1]), if_neg (by simp [hconds.2.2.2]),
      hcl, hcd, Nat.min_self]
  have hvalid := edLoop_none_valid P c w rid li lin data op (rangeList 0 m)
    lout _ hloop
  exact bed_layer_join P c w rid li lin data lout op m hconds.1 hconds.2.1
    hconds.2.2.1 hconds.2.2.2 hm hdata hvalid

/-- Claim C3: whenever any of the five stage functions (mask, expander,
butterfly, butterfly-encode, butterfly-decode) returns successfully,
every 32-byte node of the produced layer buffer is a valid domain
element (its value lies below the domain modulus), and the buffers
returned by `encode_with_trees` and `decode` satisfy the same
invariant. -/
theorem c3_truncation_invariant (P : Primitives) (c : Config) (w : Nat)
    (rid : List Nat) (li : Nat) (lin data lout out dec : List Nat)
    (trees : List (List Nat))
    (hdg : DigestValid P.dg) (hn : NODE_SIZE ∣ c.n) :
    ((mask_layer P c w rid lout).2 = none →
      ValidLayer (mask_layer P c w rid lout).1) ∧
    ((expander_layer P c w rid li lin lout).2 = none →
      ValidLayer (expander_layer P c w rid li lin lout).1) ∧
    ((butterfly_layer P c w rid li lin lout).2 = none →
      ValidLayer (butterfly_layer P c w rid li lin lout).1) ∧
    (data.length = c.n →
      (butterfly_encode_layer P c w rid li lin data lout).2 = none →
      ValidLayer (butterfly_encode_layer P c w rid li lin data lout).1) ∧
    (data.length = c.n →
      (butterfly_decode_layer P c w rid li lin data lout).2 = none →
      ValidLayer (butterfly_decode_layer P c w rid li lin data lout).1) ∧
    (data.length = c.n →
      encode_with_trees P c w rid data = Except.ok (out, trees) →
      ValidLayer out) ∧
    (data.length = c.n →
      decode P c w rid data = Except.ok dec → ValidLayer dec) := by
  obtain ⟨m, hm⟩ := hn
  refine ⟨?_, ?_, ?_, ?_, ?_, ?_, ?_⟩
  · intro h
    have hlen := (mask_layer_none_iff P c w rid lout).mp h
    rw [mask_layer_join P hdg c w rid lout m hlen hm]
    exact validLayer_join _ m (fun i => (maskNode_props P hdg w rid i).1)
      (fun i _ => (maskNode_props P hdg w rid i).2.2)
  · intro h
    obtain ⟨a, b, d, e⟩ := (expander_layer_none_iff P c w rid li lin lout).mp h
    rw [expander_layer_join P hdg c w rid li lin lout m a b d e hm]
    exact validLayer_join _ m
      (fun i => (expanderNode_props P hdg c w rid li lin i).1)
      (fun i _ => (expanderNode_props P hdg c w rid li lin i).2.2)
  · intro h
    obtain ⟨a, b, d, e, f⟩ := (butterfly_layer_none_iff P c w rid li lin lout).mp h
    rw [butterfly_layer_join P hdg c w rid li lin lout m a b d e f hm]
    exact validLayer_join _ m
      (fun i => (butterflyNode_props P hdg c w rid li lin i).1)
      (fun i _ => (butterflyNode_props P hdg c w rid li lin i).2.2)
  · intro hd h
    unfold butterfly_encode_layer at h ⊢
    rw [bed_none_characterize P c w rid li lin data lout combine m hm hd h]
    apply validLayer_join _ m (fun i => toLE32_length _)
    intro i _
    rw [fromLE_toLE32 _ (lt_trans (combine_lt _ _) rModulus_lt_2pow)]
    exact combine_lt _ _
  · intro hd h
    unfold butterfly_decode_layer at h ⊢
    rw [bed_none_characterize P c w rid li lin data lout inverse_combine m hm hd h]
    apply validLayer_join _ m (fun i => toLE32_length _)
    intro i _
    rw [fromLE_toLE32 _ (lt_trans (inverse_combine_lt _ _) rModulus_lt_2pow)]
    exact inverse_combine_lt _ _
  · intro hd henc
    obtain ⟨mo, p1, c1, t1, p2, c2, t2, hmask, hloop1, hloop2, hfinal, -⟩ :=
      encode_ok_decomp P c w rid data out trees henc
    unfold butterfly_encode_layer at hfinal
    have hchar := bed_none_characterize P c w rid c.num_layers p2 data c2
      combine m hm hd (by rw [hfinal])
    have hout : ((rangeList 0 m).map
        (edNode P c w rid c.num_layers p2 data combine)).join = out :=
      congrArg Prod.fst (hchar.symm.trans hfinal)
    rw [← hout]
    apply validLayer_join _ m (fun i => toLE32_length _)
    intro i _
    rw [fromLE_toLE32 _ (lt_trans (combine_lt _ _) rModulus_lt_2pow)]
    exact combine_lt _ _
  · intro hd hdec
    obtain ⟨mo, p1, c1, t1, p2, c2, t2, hmask, hloop1, hloop2, hfinal⟩ :=
      decode_ok_decomp P c w rid data dec hdec
    unfold butterfly_decode_layer at hfinal
    have hchar := bed_none_characterize P c w rid c.num_layers p2 data c2
      inverse_combine m hm hd (by rw [hfinal])
    have hout : ((rangeList 0 m).map
        (edNode P c w rid c.num_layers p2 data inverse_combine)).join = dec :=
      congrArg Prod.fst (hchar.symm.trans hfinal)
    rw [← hout]
    apply validLayer_join _ m (fun i => toLE32_length _)
    intro i _
    rw [fromLE_toLE32 _ (lt_trans (inverse_combine_lt _ _) rModulus_lt_2pow)]
    exact inverse_combine_lt _ _

/-- Witness for claim C3: the mask layer written at the concrete config
over a non-zero initial buffer is a layer of valid domain elements. -/
theorem c3_truncation_invariant_witness :
    ValidLayer (mask_layer P0 cfg0 0 id0 (List.replicate 32 9)).1 :=
  (c3_truncation_invariant P0 cfg0 0 id0 2 id0 data0 (List.replicate 32 9)
    [] [] [] p0_digest_valid (by decide)).1 (by decide)

/-- Claim C5 (amended): the mask and expander stages return an error
exactly when invoked with mismatched buffers or (for the expander) a
layer index outside its range, the butterfly stage exactly when the
buffers mismatch, the layer index is out of range or `degree_butterfly`
is odd, each leaving the output buffer unmodified on error; the
butterfly encode/decode stage returns a configuration error with the
buffer unmodified whenever its range or buffer conditions are violated,
but it may additionally fail on a domain-conversion error after some
nodes were written. -/
theorem c5_stage_error_conditions (P : Primitives) (c : Config) (w : Nat)
    (rid : List Nat) (li : Nat) (lin data lout : List Nat)
    (op : Nat → Nat → Nat) :
    ((mask_layer P c w rid lout).2 = none ↔ lout.length = c.n) ∧
    ((mask_layer P c w rid lout).2 ≠ none →
      (mask_layer P c w rid lout).1 = lout) ∧
    ((expander_layer P c w rid li lin lout).2 = none ↔
      (lin.length = lout.length ∧ lout.length = c.n ∧ 1 < li ∧
        li ≤ c.num_expander_layers)) ∧
    ((expander_layer P c w rid li lin lout).2 ≠ none →
      (expander_layer P c w rid li lin lout).1 = lout) ∧
    ((butterfly_layer P c w rid li lin lout).2 = none ↔
      (lin.length = lout.length ∧ lout.length = c.n ∧
        c.num_expander_layers < li ∧
        li < c.num_expander_layers + c.num_butterfly_layers ∧
        c.degree_butterfly % 2 = 0)) ∧
    ((butterfly_layer P c w rid li lin lout).2 ≠ none →
      (butterfly_layer P c w rid li lin lout).1 = lout) ∧
    (¬(lin.length = lout.length ∧ lout.length = c.n ∧
        li = c.num_expander_layers + c.num_butterfly_layers ∧
        c.degree_butterfly % 2 = 0) →
      (butterfly_encode_decode_layer P c w rid li lin data lout op).1 = lout ∧
      (butterfly_encode_decode_layer P c w rid li lin data lout op).2 ≠ none) :=
  ⟨mask_layer_none_iff P c w rid lout,
    mask_layer_err_unchanged P c w rid lout,
    expander_layer_none_iff P c w rid li lin lout,
    expander_layer_err_unchanged P c w rid li lin lout,
    butterfly_layer_none_iff P c w rid li lin lout,
    butterfly_layer_err_unchanged P c w rid li lin lout,
    bed_layer_err P c w rid li lin data lout op⟩

/-- Witness for claim C5 (amended): a successful mask stage, a
successful butterfly stage, and a rejected encode/decode stage invoked
on the wrong layer index with the buffer left unchanged. -/
theorem c5_stage_error_conditions_witness :
    (mask_layer P0 cfgB 0 id0 id0).2 = none ∧
    (butterfly_layer P0 cfgB 0 id0 2 id0 id0).2 = none ∧
    (butterfly_encode_decode_layer P0 cfgB 0 id0 5 id0 data0 id0 combine).1
      = id0 ∧
    (butterfly_encode_decode_layer P0 cfgB 0 id0 5 id0 data0 id0 combine).2
      ≠ none :=
  have h := c5_stage_error_conditions P0 cfgB 0 id0 2 id0 data0 id0 combine
  have h5 := c5_stage_error_conditions P0 cfgB 0 id0 5 id0 data0 id0 combine
  ⟨h.1.mpr (by decide), h.2.2.2.2.1.mpr (by decide),
    (h5.2.2.2.2.2.2 (by decide)).1, (h5.2.2.2.2.2.2 (by decide)).2⟩

/-- Counterexample for claim C5 as stated: the butterfly encode/decode
stage, invoked with matching buffers of length `config.n` and the
correct (final) layer index and an even butterfly degree, still returns
an error on a data node that is not a valid domain element, and the
output buffer has already been modified. -/
theorem c5_stage_error_counterexample :
    lin64.length = lout64.length ∧ lout64.length = cfg64.n ∧
    2 = cfg64.num_expander_layers + cfg64.num_butterfly_layers ∧
    cfg64.degree_butterfly % 2 = 0 ∧
    (butterfly_encode_decode_layer P0 cfg64 0 id0 2 lin64 dataBad64 lout64
      combine).2 ≠ none ∧
    (butterfly_encode_decode_layer P0 cfg64 0 id0 2 lin64 dataBad64 lout64
      combine).1 ≠ lout64 := by
  decide

/-- Claim C8 (spec-modelled): a configuration with an odd
`degree_butterfly` makes both butterfly stage functions fail with a
configuration error before any node is written to the output buffer. -/
theorem c8_odd_degree_rejected (P : Primitives) (c : Config) (w : Nat)
    (rid : List Nat) (li : Nat) (lin data lout : List Nat)
    (op : Nat → Nat → Nat) (hodd : c.degree_butterfly % 2 = 1) :
    ((butterfly_layer P c w rid li lin lout).2 ≠ none ∧
      (butterfly_layer P c w rid li lin lout).1 = lout) ∧
    ((butterfly_encode_decode_layer P c w rid li lin data lout op).2 ≠ none ∧
      (butterfly_encode_decode_layer P c w rid li lin data lout op).1
        = lout) := by
  have h1 : (butterfly_layer P c w rid li lin lout).2 ≠ none := by
    intro hnone
    have := ((butterfly_layer_none_iff P c w rid li lin lout).mp hnone).2.2.2.2
    omega
  have h2 := bed_layer_err P c w rid li lin data lout op
    (by intro hc; have := hc.2.2.2; omega)
  exact ⟨⟨h1, butterfly_layer_err_unchanged P c w rid li lin lout h1⟩,
    ⟨h2.2, h2.1⟩⟩

/-- Witness for claim C8: both butterfly stages reject the concrete
odd-degree configuration and leave the buffer untouched. -/
theorem c8_odd_degree_rejected_witness :
    ((butterfly_layer P0 cfgOdd 0 id0 2 id0 id0).2 ≠ none ∧
      (butterfly_layer P0 cfgOdd 0 id0 2 id0 id0).1 = id0) ∧
    ((butterfly_encode_decode_layer P0 cfgOdd 0 id0 2 id0 data0 id0
        combine).2 ≠ none ∧
      (butterfly_encode_decode_layer P0 cfgOdd 0 id0 2 id0 data0 id0
        combine).1 = id0) :=
  c8_odd_degree_rejected P0 cfgOdd 0 id0 2 id0 data0 id0 combine (by decide)

/-- Claim C10: the mask layer overwrites every byte of its output
buffer: on any two buffers of length `config.n` with arbitrary distinct
prior contents, `mask_layer` produces byte-identical results. -/
theorem c10_mask_layer_overwrites (P : Primitives) (c : Config) (w : Nat)
    (rid b1 b2 : List Nat) (hdg : DigestValid P.dg) (hn : NODE_SIZE ∣ c.n)
    (h1 : b1.length = c.n) (h2 : b2.length = c.n) :
    mask_layer P c w rid b1 = mask_layer P c w rid b2 := by
  obtain ⟨m, hm⟩ := hn
  rw [mask_layer_join P hdg c w rid b1 m h1 hm,
    mask_layer_join P hdg c w rid b2 m h2 hm]

/-- Witness for claim C10: two different 32-byte initial buffers give
the same mask layer. -/
theorem c10_mask_layer_overwrites_witness :
    mask_layer P0 cfg0 0 id0 (List.replicate 32 0)
      = mask_layer P0 cfg0 0 id0 (List.replicate 32 5) :=
  c10_mask_layer_overwrites P0 cfg0 0 id0 (List.replicate 32 0)
    (List.replicate 32 5) p0_digest_valid (by decide) (by decide) (by decide)

/-- Claim C7 evaluation: `encode_with_trees` and `decode` do not reject
a data argument whose length differs from `config.n`; with empty data
both succeed. -/
theorem c7_data_length_not_checked :
    (encode_with_trees P0 cfg0 0 id0 []).isOk = true ∧
    (decode P0 cfg0 0 id0 []).isOk = true ∧
    ([] : List Nat).length ≠ cfg0.n := by
  decide
